import Mathlib

/-!
Verification of the `struct` delegation shim
(`src/graalpython/lib-python/3/struct.py`) against its specification.

The shim itself is pure glue: it re-exports the names in `__all__` as
delegate functions that forward to the native `_struct` engine.  The engine
is not part of the repository fragment, so its operations (format parsing,
`calcsize`, `pack`, `unpack`, `unpack_from`, `iter_unpack`) are modelled
from the specification text in the `StructSpec` namespace; the shim's own
code (module globals, `make_delegate`, the lazy `__cstruct` handle) is
embedded in the `StructShim` namespace.

Machine bytes are `Fin 256`; buffers are lists of bytes; multi-byte
integers are encoded through explicit base-256 positional arithmetic.  The
native platform is modelled as a 64-bit little-endian machine with standard
sizes (as the spec's §3 and §4.1 require: integer widths 1/2/4/8,
float32/float64, natural alignment in `@` mode only).
-/

namespace StructSpec

/-- A machine byte. -/
abbrev Byte := Fin 256

/-- Modelled from the spec: the error taxonomy of §7 for the missing native
engine `_struct` (malformed format, value-count mismatch, category mismatch,
out-of-range value, and wrong-sized buffer). -/
inductive StructError where
  | formatError
  | arityError
  | typeError
  | rangeError
  | bufferError
deriving DecidableEq, Repr

/-- Modelled from the spec: the byte-order/alignment mode selected by the
optional first character of a format string (§4.1). -/
inductive Mode where
  | nativeAligned
  | nativePacked
  | littlePacked
  | bigPacked
  | networkPacked
deriving DecidableEq, Repr

/-- Whether multi-byte values are written most-significant byte first.
Native modes use the platform order, modelled as little-endian. -/
def Mode.isBig : Mode → Bool
  | .bigPacked => true
  | .networkPacked => true
  | _ => false

/-- Whether implicit alignment padding is inserted (only `@` mode). -/
def Mode.isAligned : Mode → Bool
  | .nativeAligned => true
  | _ => false

/-- Whether the mode is a native mode (`@` or `=`). -/
def Mode.isNative : Mode → Bool
  | .nativeAligned => true
  | .nativePacked => true
  | _ => false

/-- Modelled from the spec: a field descriptor of §3 for the missing native
engine — integer width/signedness, float width, char, boolean,
fixed-length byte string, Pascal-style string, or pad byte.  The
pointer-sized code is parsed into an unsigned 8-byte integer field. -/
inductive FieldType where
  | intf (size : Nat) (signed : Bool)
  | float32
  | float64
  | char
  | boolf
  | str (n : Nat)
  | pascal (n : Nat)
  | pad
deriving DecidableEq, Repr

/-- Natural alignment of a field type on the modelled platform. -/
def FieldType.alignment : FieldType → Nat
  | .intf s _ => s
  | .float32 => 4
  | .float64 => 8
  | _ => 1

/-- Encoded byte size of one field. -/
def FieldType.byteSize : FieldType → Nat
  | .intf s _ => s
  | .float32 => 4
  | .float64 => 8
  | .str n => n
  | .pascal n => n
  | _ => 1

/-- Whether a field produces/consumes a value (pad bytes do not). -/
def FieldType.producesValue : FieldType → Bool
  | .pad => false
  | _ => true

/-- A field whose declared integer width is one the spec admits (§4.1:
widths 1, 2, 4 or 8 bytes). -/
def FieldType.wf : FieldType → Bool
  | .intf s _ => s == 1 || s == 2 || s == 4 || s == 8
  | _ => true

/-- Modelled from the spec: a compiled format (§3 FormatSpec) — the mode
and the ordered field descriptors, immutable once built. -/
structure FormatSpec where
  mode : Mode
  fields : List FieldType
deriving DecidableEq, Repr

/-- A compiled format all of whose integer fields have admissible widths;
every format the parser produces is of this shape. -/
def FormatSpec.wf (f : FormatSpec) : Bool := f.fields.all FieldType.wf

/-- Bytes of padding needed to advance `off` to the next multiple of `a`. -/
def padTo (off a : Nat) : Nat := (a - off % a) % a

/-- Alignment padding inserted before a field at offset `off`: the natural
alignment gap in `@` mode, none in the packed modes (§4.1). -/
def padFor (m : Mode) (off : Nat) (ft : FieldType) : Nat :=
  if m.isAligned then padTo off ft.alignment else 0

/-- Modelled from the spec: the first optional format character selects the
mode (§4.1); `@` native-aligned is the default. -/
def parseMode : List Char → Mode × List Char
  | '@' :: cs => (.nativeAligned, cs)
  | '=' :: cs => (.nativePacked, cs)
  | '<' :: cs => (.littlePacked, cs)
  | '>' :: cs => (.bigPacked, cs)
  | '!' :: cs => (.networkPacked, cs)
  | cs => (.nativeAligned, cs)

/-- Modelled from the spec: the fields one type code with count `n` stands
for (§4.1).  A repeat count expands integer/float/char/bool/pad codes into
`n` fields; for `s` and `p` the count is the byte length of the single
field; the pointer-sized code `P` is only valid in native modes. -/
def codeFields (m : Mode) (c : Char) (n : Nat) : Except StructError (List FieldType) :=
  match c with
  | 'x' => .ok (List.replicate n .pad)
  | 'c' => .ok (List.replicate n .char)
  | 'b' => .ok (List.replicate n (.intf 1 true))
  | 'B' => .ok (List.replicate n (.intf 1 false))
  | '?' => .ok (List.replicate n .boolf)
  | 'h' => .ok (List.replicate n (.intf 2 true))
  | 'H' => .ok (List.replicate n (.intf 2 false))
  | 'i' => .ok (List.replicate n (.intf 4 true))
  | 'I' => .ok (List.replicate n (.intf 4 false))
  | 'l' => .ok (List.replicate n (.intf 4 true))
  | 'L' => .ok (List.replicate n (.intf 4 false))
  | 'q' => .ok (List.replicate n (.intf 8 true))
  | 'Q' => .ok (List.replicate n (.intf 8 false))
  | 'f' => .ok (List.replicate n .float32)
  | 'd' => .ok (List.replicate n .float64)
  | 's' => .ok [.str n]
  | 'p' => .ok [.pascal n]
  | 'P' => if m.isNative then .ok (List.replicate n (.intf 8 false)) else .error .formatError
  | _ => .error .formatError

/-- Modelled from the spec: the body of the format grammar (§4.1) —
`(optional decimal repeat-count)(type-code)` pairs with whitespace between
pairs ignored.  `pending` carries the digits read so far of the current
count; a count with no following code is malformed. -/
def parseFieldsAux (m : Mode) (pending : Option Nat) :
    List Char → Except StructError (List FieldType)
  | [] =>
    match pending with
    | none => .ok []
    | some _ => .error .formatError
  | c :: cs =>
    if c.isWhitespace then
      match pending with
      | none => parseFieldsAux m none cs
      | some _ => .error .formatError
    else if c.isDigit then
      parseFieldsAux m (some ((pending.getD 0) * 10 + (c.toNat - 48))) cs
    else
      match codeFields m c (pending.getD 1) with
      | .ok fs =>
        match parseFieldsAux m none cs with
        | .ok rest => .ok (fs ++ rest)
        | .error e => .error e
      | .error e => .error e

/-- Modelled from the spec: the format parser of §4.1 for the missing
native engine — mode prefix, then count/code pairs. -/
def parseFormat (s : String) : Except StructError FormatSpec :=
  match parseMode s.toList with
  | (m, cs) =>
    match parseFieldsAux m none cs with
    | .ok fields => .ok ⟨m, fields⟩
    | .error e => .error e

/-- Modelled from the spec: §4.2 size computation — the running offset
after laying out every field from `off`, alignment padding included. -/
def calcsizeAux (m : Mode) : List FieldType → Nat → Nat
  | [], off => off
  | ft :: fs, off => calcsizeAux m fs (off + padFor m off ft + ft.byteSize)

/-- Modelled from the spec: `calcsize` on a compiled format (§4.2), the
exact encoded byte length including alignment padding. -/
def calcsizeSpec (f : FormatSpec) : Nat := calcsizeAux f.mode f.fields 0

/-- Modelled from the spec: a value a field encodes or decodes (§3, §4.3,
§4.4).  Float values are carried as their IEEE-754 binary32/binary64 bit
patterns; the spec's byte-level contract (declared byte order, declared
width) is about those bits. -/
inductive Value where
  | vint (i : Int)
  | vfloat32 (bits : Nat)
  | vfloat64 (bits : Nat)
  | vchar (b : Byte)
  | vbool (b : Bool)
  | vbytes (s : List Byte)
deriving DecidableEq, Repr

/-- Little-endian base-256 digits of `v`, exactly `w` bytes. -/
def natToBytesLE : Nat → Nat → List Byte
  | 0, _ => []
  | w + 1, v => ⟨v % 256, Nat.mod_lt v (by norm_num)⟩ :: natToBytesLE w (v / 256)

/-- The natural number a little-endian byte list denotes. -/
def bytesToNatLE : List Byte → Nat
  | [] => 0
  | b :: bs => b.val + 256 * bytesToNatLE bs

/-- `w` bytes of `v` in the declared byte order (§4.3). -/
def endianBytes (big : Bool) (w v : Nat) : List Byte :=
  if big then (natToBytesLE w v).reverse else natToBytesLE w v

/-- Modelled from the spec: encoding of one value into one field (§4.3) —
integers must fit the declared width and signedness (RangeError), wrong
categories are TypeError, byte strings longer than a fixed-length `s`
field are RangeError while shorter ones are right-padded with zero bytes,
and Pascal `p` strings truncate to the capacity implied by the declared
size.  Pad fields consume no value and are handled by the caller. -/
def packField (big : Bool) : FieldType → Value → Except StructError (List Byte)
  | .intf s true, .vint i =>
    if -(2 ^ (8 * s - 1) : Int) ≤ i ∧ i < 2 ^ (8 * s - 1) then
      .ok (endianBytes big s (i % (2 ^ (8 * s) : Int)).toNat)
    else .error .rangeError
  | .intf s false, .vint i =>
    if 0 ≤ i ∧ i < 2 ^ (8 * s) then
      .ok (endianBytes big s (i % (2 ^ (8 * s) : Int)).toNat)
    else .error .rangeError
  | .intf _ _, _ => .error .typeError
  | .float32, .vfloat32 bits =>
    if bits < 2 ^ 32 then .ok (endianBytes big 4 bits) else .error .rangeError
  | .float32, _ => .error .typeError
  | .float64, .vfloat64 bits =>
    if bits < 2 ^ 64 then .ok (endianBytes big 8 bits) else .error .rangeError
  | .float64, _ => .error .typeError
  | .char, .vchar b => .ok [b]
  | .char, _ => .error .typeError
  | .boolf, .vbool b => .ok [if b then (1 : Byte) else 0]
  | .boolf, _ => .error .typeError
  | .str n, .vbytes s =>
    if s.length ≤ n then .ok (s ++ List.replicate (n - s.length) (0 : Byte))
    else .error .rangeError
  | .str _, _ => .error .typeError
  | .pascal n, .vbytes s =>
    if n = 0 then .ok []
    else
      .ok (⟨min s.length (min (n - 1) 255), by omega⟩ ::
        (s.take (min s.length (min (n - 1) 255)) ++
          List.replicate (n - 1 - min s.length (min (n - 1) 255)) (0 : Byte)))
  | .pascal _, _ => .error .typeError
  | .pad, _ => .error .typeError

/-- Modelled from the spec: the encoder's walk over the fields (§4.3),
threading the running offset for alignment padding; pad fields emit one
zero byte and consume no value; a leftover or missing value is an
ArityError. -/
def packFieldsAux (m : Mode) : List FieldType → List Value → Nat → Except StructError (List Byte)
  | [], [], _ => .ok []
  | [], _ :: _, _ => .error .arityError
  | ft :: fs, vs, off =>
    if ft = .pad then
      match packFieldsAux m fs vs (off + padFor m off ft + ft.byteSize) with
      | .ok rest => .ok (List.replicate (padFor m off ft) (0 : Byte) ++ (0 : Byte) :: rest)
      | .error e => .error e
    else
      match vs with
      | [] => .error .arityError
      | v :: vs =>
        match packField m.isBig ft v, packFieldsAux m fs vs (off + padFor m off ft + ft.byteSize) with
        | .ok enc, .ok rest => .ok (List.replicate (padFor m off ft) (0 : Byte) ++ enc ++ rest)
        | .error e, _ => .error e
        | .ok _, .error e => .error e

/-- Modelled from the spec: `pack` on a compiled format (§4.3). -/
def packSpec (f : FormatSpec) (vs : List Value) : Except StructError (List Byte) :=
  packFieldsAux f.mode f.fields vs 0

/-- Modelled from the spec: decoding of one field from its exact-size chunk
(§4.4) — sign extension for signed integers, IEEE bit patterns for floats,
raw bytes of the declared length for `s`, the length-prefixed payload for
`p`, nonzero-is-true for booleans. -/
def decodeField (big : Bool) (ft : FieldType) (chunk : List Byte) : Value :=
  match ft with
  | .intf s true =>
    if 2 ^ (8 * s - 1) ≤ bytesToNatLE (if big then chunk.reverse else chunk) then
      .vint ((bytesToNatLE (if big then chunk.reverse else chunk) : Int) - 2 ^ (8 * s))
    else .vint (bytesToNatLE (if big then chunk.reverse else chunk))
  | .intf _ false => .vint (bytesToNatLE (if big then chunk.reverse else chunk))
  | .float32 => .vfloat32 (bytesToNatLE (if big then chunk.reverse else chunk))
  | .float64 => .vfloat64 (bytesToNatLE (if big then chunk.reverse else chunk))
  | .char => .vchar (chunk.headD 0)
  | .boolf => .vbool (decide (chunk.headD 0 ≠ 0))
  | .str n => .vbytes (chunk.take n)
  | .pascal n =>
    if n = 0 then .vbytes []
    else .vbytes ((chunk.drop 1).take (min (chunk.headD 0).val (n - 1)))
  | .pad => .vbool false

/-- Modelled from the spec: the decoder's walk over the fields (§4.4),
skipping alignment padding and pad bytes, producing one value per
value-producing field in declaration order. -/
def unpackFieldsAux (m : Mode) : List FieldType → List Byte → Nat → List Value
  | [], _, _ => []
  | ft :: fs, buf, off =>
    if ft = .pad then
      unpackFieldsAux m fs ((buf.drop (padFor m off ft)).drop ft.byteSize)
        (off + padFor m off ft + ft.byteSize)
    else
      decodeField m.isBig ft ((buf.drop (padFor m off ft)).take ft.byteSize) ::
        unpackFieldsAux m fs ((buf.drop (padFor m off ft)).drop ft.byteSize)
          (off + padFor m off ft + ft.byteSize)

/-- Modelled from the spec: `unpack` on a compiled format (§4.4) — the
buffer must have exactly `calcsize` bytes, else BufferError. -/
def unpackSpec (f : FormatSpec) (buf : List Byte) : Except StructError (List Value) :=
  if buf.length = calcsizeSpec f then .ok (unpackFieldsAux f.mode f.fields buf 0)
  else .error .bufferError

/-- Modelled from the spec: `unpack_from` on a compiled format (§4.4) — at
least `calcsize` bytes must remain from `off`, and exactly that many are
consumed. -/
def unpackFromSpec (f : FormatSpec) (buf : List Byte) (off : Nat) :
    Except StructError (List Value) :=
  if buf.length < off + calcsizeSpec f then .error .bufferError
  else .ok (unpackFieldsAux f.mode f.fields ((buf.drop off).take (calcsizeSpec f)) 0)

/-- Modelled from the spec: `iter_unpack` on a compiled format (§4.5) —
the buffer length must be an exact multiple of `calcsize`, else BufferError
up front; the result decodes each non-overlapping `calcsize`-byte chunk in
order. -/
def iterUnpackSpec (f : FormatSpec) (buf : List Byte) :
    Except StructError (List (List Value)) :=
  if buf.length % calcsizeSpec f = 0 then
    .ok ((List.range (buf.length / calcsizeSpec f)).map fun i =>
      unpackFieldsAux f.mode f.fields
        ((buf.drop (i * calcsizeSpec f)).take (calcsizeSpec f)) 0)
  else .error .bufferError

/-- Modelled from the spec: the free function `calcsize` (§6), parsing the
format string on every call. -/
def calcsize (s : String) : Except StructError Nat :=
  match parseFormat s with
  | .ok f => .ok (calcsizeSpec f)
  | .error e => .error e

/-- Modelled from the spec: the free function `pack` (§6). -/
def pack (s : String) (vs : List Value) : Except StructError (List Byte) :=
  match parseFormat s with
  | .ok f => packSpec f vs
  | .error e => .error e

/-- Modelled from the spec: the free function `unpack` (§6). -/
def unpack (s : String) (buf : List Byte) : Except StructError (List Value) :=
  match parseFormat s with
  | .ok f => unpackSpec f buf
  | .error e => .error e

/-- Modelled from the spec: the free function `unpack_from` (§6). -/
def unpack_from (s : String) (buf : List Byte) (off : Nat) : Except StructError (List Value) :=
  match parseFormat s with
  | .ok f => unpackFromSpec f buf off
  | .error e => .error e

/-- Modelled from the spec: the free function `iter_unpack` (§6). -/
def iter_unpack (s : String) (buf : List Byte) : Except StructError (List (List Value)) :=
  match parseFormat s with
  | .ok f => iterUnpackSpec f buf
  | .error e => .error e

/-- The per-field side condition under which decoding inverts encoding: a
fixed-length byte-string value must have exactly the declared length (a
shorter one is zero-padded and decodes longer), and a Pascal-string value
must fit the declared capacity (a longer one is truncated). -/
def valueSafe : FieldType → Value → Bool
  | .str n, .vbytes s => s.length == n
  | .pascal n, .vbytes s => decide (s.length ≤ min (n - 1) 255)
  | _, _ => true

/-- The side condition of `valueSafe`, over a field list and its matching
values (pad fields consume no value). -/
def roundTripSafe : List FieldType → List Value → Bool
  | [], _ => true
  | ft :: fs, vs =>
    if ft = .pad then roundTripSafe fs vs
    else
      match vs with
      | [] => true
      | v :: vs => valueSafe ft v && roundTripSafe fs vs

end StructSpec

namespace StructShim

/-- A Python runtime value, as far as the shim's code can observe one: the
shim only ever reads the attribute `__cstruct` of its first argument. -/
inductive PyVal where
  | pyNone
  | pyStr (s : String)
  | pyInt (i : Int)
  | pyBytes (bs : List StructSpec.Byte)
  | pyModule (moduleName : String)
  | pyObj (attrs : List (String × PyVal))

/-- Attribute lookup in an association list of attributes. -/
def lookupAttr (n : String) : List (String × PyVal) → Option PyVal
  | [] => none
  | (k, v) :: rest => if k = n then some v else lookupAttr n rest

/-- Python `getattr`: only explicit-attribute objects carry attributes in
this model; strings, bytes, ints, None and bare modules have none of the
names the shim looks up. -/
def getattr (v : PyVal) (n : String) : Option PyVal :=
  match v with
  | .pyObj attrs => lookupAttr n attrs
  | _ => none

/-- The attribute name the delegate reads on its first argument: `delegate`
is a plain nested function, not a method in a class body, so
`self.__cstruct` is not name-mangled and denotes the literal attribute
`__cstruct`. -/
def cstructName : String := "__cstruct"

/-- The `_struct` module object the lazy import produces. -/
def structModule : PyVal := .pyModule "_struct"

/-- The shim's only mutable state: the module-level global `__cstruct`,
which starts as `None` (modelled `none`). -/
structure ShimState where
  cstruct : Option PyVal

/-- The state at module load: `__cstruct = None`. -/
def initState : ShimState := ⟨none⟩

/-- The body's lazy-import guard `if not __cstruct: import _struct as
__cstruct`: `None` is falsy and a module object is truthy, so the import
runs exactly when the handle is unset.  Returns the new state and whether
the import ran. -/
def ensureEngine (s : ShimState) : ShimState × Bool :=
  match s.cstruct with
  | none => (⟨some structModule⟩, true)
  | some _ => (s, false)

/-- What a call to a delegate produced. -/
inductive DelegateResult where
  | typeErrorMissingSelf
  | attributeError
  | engineCall (target : PyVal) (op : String) (fargs : List PyVal)

/-- The delegate produced by `make_delegate(p)`, applied to an argument
list: `def delegate(self, *args, **kwargs)` binds the first positional
argument to `self` (no argument at all is a TypeError before the body
runs), runs the lazy-import guard, then evaluates
`getattr(self.__cstruct, p)(*args, **kwargs)` — an attribute lookup of
`__cstruct` on `self`, which raises AttributeError when `self` has no such
attribute, and otherwise calls the operation `p` of that attribute with
only the remaining arguments.  Returns (new state, whether the import ran,
result). -/
def delegate (p : String) (s : ShimState) (args : List PyVal) :
    ShimState × Bool × DelegateResult :=
  match args with
  | [] => (s, false, .typeErrorMissingSelf)
  | self :: rest =>
    match ensureEngine s, getattr self cstructName with
    | (s1, imported), none => (s1, imported, .attributeError)
    | (s1, imported), some t => (s1, imported, .engineCall t p rest)

/-- A sequence of delegated calls (operation name and argument list each),
run from a state; returns the final state and how many times the
lazy import ran. -/
def runShim : List (String × List PyVal) → ShimState → ShimState × Nat
  | [], s => (s, 0)
  | (p, args) :: rest, s =>
    match delegate p s args with
    | (s1, imported, _) =>
      match runShim rest s1 with
      | (s2, k) => (s2, (if imported then 1 else 0) + k)

/-- A module-global binding, as far as the shim's module body creates them:
a delegate function (a plain function object whose `__name__` is the given
string), the `None` placeholder, the `__all__` list, an ordinary `def`-ed
function, a string (the loop variable), or — for contrast — a class. -/
inductive GlobalBinding where
  | delegateFunc (fname : String)
  | noneBinding
  | listBinding (names : List String)
  | funcDef (fname : String)
  | strBinding (s : String)
  | classBinding (cname : String)
deriving DecidableEq, Repr

/-- `make_delegate(p)`: builds a fresh delegate function and sets its
`__name__` to `p` before returning it. -/
def make_delegate (p : String) : GlobalBinding := .delegateFunc p

/-- The `__all__` list of the module, in source order. -/
def allNames : List String :=
  ["calcsize", "pack", "pack_into", "unpack", "unpack_from", "iter_unpack", "Struct", "error"]

/-- Assignment to a module global: the newest binding shadows older ones. -/
def setGlobal (g : List (String × GlobalBinding)) (k : String) (v : GlobalBinding) :
    List (String × GlobalBinding) :=
  (k, v) :: g

/-- Module-global lookup (first match is the current binding). -/
def lookupGlobal : List (String × GlobalBinding) → String → Option GlobalBinding
  | [], _ => none
  | (k, v) :: rest, n => if k = n then some v else lookupGlobal rest n

/-- The module body: bind `__all__`, `__cstruct = None` and
`make_delegate`, then `for p in __all__: globals()[p] = make_delegate(p)`
(the loop variable `p` is itself a module global rebound each
iteration). -/
def moduleInit : List (String × GlobalBinding) :=
  allNames.foldl
    (fun g p => setGlobal (setGlobal g "p" (.strBinding p)) p (make_delegate p))
    (setGlobal
      (setGlobal
        (setGlobal [] "__all__" (.listBinding allNames))
        "__cstruct" .noneBinding)
      "make_delegate" (.funcDef "make_delegate"))

end StructShim

namespace StructSpec

theorem length_natToBytesLE (w v : Nat) : (natToBytesLE w v).length = w := by
  induction w generalizing v with
  | zero => rfl
  | succ w ih => simp [natToBytesLE, ih]

theorem bytesToNatLE_natToBytesLE (w v : Nat) :
    bytesToNatLE (natToBytesLE w v) = v % 256 ^ w := by
  induction w generalizing v with
  | zero => simp [natToBytesLE, bytesToNatLE, Nat.mod_one]
  | succ w ih =>
    simp only [natToBytesLE, bytesToNatLE, ih]
    rw [pow_succ', Nat.mod_mul]

theorem length_endianBytes (big : Bool) (w v : Nat) : (endianBytes big w v).length = w := by
  cases big <;> simp [endianBytes, length_natToBytesLE]

theorem bytesToNatLE_unendian (big : Bool) (w v : Nat) :
    bytesToNatLE (if big then (endianBytes big w v).reverse else endianBytes big w v) =
      v % 256 ^ w := by
  cases big <;> simp [endianBytes, bytesToNatLE_natToBytesLE]

theorem packField_length (big : Bool) (ft : FieldType) (v : Value) (enc : List Byte)
    (h : packField big ft v = .ok enc) : enc.length = ft.byteSize := by
  cases ft <;> cases v <;> simp only [packField] at h <;> try exact (Except.noConfusion h)
  case intf.vint s signed i =>
    cases signed <;> simp only [packField] at h <;> split at h <;>
      try exact (Except.noConfusion h)
    all_goals
      injection h with h2
      subst h2
      simp [FieldType.byteSize, length_endianBytes]
  case float32.vfloat32 bits =>
    split at h
    · injection h with h2
      subst h2
      simp [FieldType.byteSize, length_endianBytes]
    · exact (Except.noConfusion h)
  case float64.vfloat64 bits =>
    split at h
    · injection h with h2
      subst h2
      simp [FieldType.byteSize, length_endianBytes]
    · exact (Except.noConfusion h)
  case char.vchar b =>
    injection h with h2
    subst h2
    rfl
  case boolf.vbool b =>
    injection h with h2
    subst h2
    rfl
  case str.vbytes n s =>
    split at h
    next hle =>
      injection h with h2
      subst h2
      simp only [List.length_append, List.length_replicate, FieldType.byteSize]
      omega
    next hle => exact (Except.noConfusion h)
  case pascal.vbytes n s =>
    split at h
    next hn =>
      injection h with h2
      subst h2
      simp only [List.length_nil, FieldType.byteSize]
      omega
    next hn =>
      injection h with h2
      subst h2
      simp only [List.length_cons, List.length_append, List.length_take,
        List.length_replicate, FieldType.byteSize]
      omega

theorem decodeField_intf_signed (big : Bool) (s : Nat) (i : Int) (hs : 1 ≤ s)
    (hlo : -(2 ^ (8 * s - 1) : Int) ≤ i) (hhi : i < 2 ^ (8 * s - 1)) :
    decodeField big (.intf s true)
      (endianBytes big s (i % (2 ^ (8 * s) : Int)).toNat) = .vint i := by
  have hN : (256 : Nat) ^ s = 2 ^ (8 * s) := by
    rw [show (256 : Nat) = 2 ^ 8 by norm_num, ← pow_mul]
  have hNpos : (0 : Int) < 2 ^ (8 * s) := by positivity
  have hdouble : (2 : Int) ^ (8 * s) = 2 ^ (8 * s - 1) * 2 := by
    rw [← pow_succ]
    congr 1
    omega
  have hjnn : 0 ≤ i % 2 ^ (8 * s) := Int.emod_nonneg i (by positivity)
  have hjlt : i % 2 ^ (8 * s) < 2 ^ (8 * s) := Int.emod_lt_of_pos i hNpos
  have hcast : ((i % 2 ^ (8 * s)).toNat : Int) = i % 2 ^ (8 * s) :=
    Int.toNat_of_nonneg hjnn
  have hcastN : (((2 : Nat) ^ (8 * s) : Nat) : Int) = 2 ^ (8 * s) := by push_cast; rfl
  have hlt : (i % 2 ^ (8 * s)).toNat < 256 ^ s := by
    rw [hN]
    omega
  have hchar : ((i % 2 ^ (8 * s)).toNat : Int) = i ∨
      ((i % 2 ^ (8 * s)).toNat : Int) = i + 2 ^ (8 * s) := by
    rcases le_or_lt 0 i with hi | hi
    · left
      rw [hcast, Int.emod_eq_of_lt hi (by omega)]
    · right
      have h1 : (i + 2 ^ (8 * s) * 1) % 2 ^ (8 * s) = i % 2 ^ (8 * s) :=
        Int.add_mul_emod_self_left i (2 ^ (8 * s)) 1
      rw [hcast, ← h1, mul_one]
      exact Int.emod_eq_of_lt (by omega) (by omega)
  simp only [decodeField, bytesToNatLE_unendian, Nat.mod_eq_of_lt hlt]
  split
  next hth =>
    have hthI : (2 : Int) ^ (8 * s - 1) ≤ ((i % 2 ^ (8 * s)).toNat : Int) := by
      exact_mod_cast hth
    rw [Value.vint.injEq]
    rcases hchar with ht | ht <;> omega
  next hth =>
    have hthI : ((i % 2 ^ (8 * s)).toNat : Int) < (2 : Int) ^ (8 * s - 1) := by
      rw [not_le] at hth
      exact_mod_cast hth
    rw [Value.vint.injEq]
    rcases hchar with ht | ht <;> omega

theorem decodeField_intf_unsigned (big : Bool) (s : Nat) (i : Int)
    (hlo : 0 ≤ i) (hhi : i < 2 ^ (8 * s)) :
    decodeField big (.intf s false)
      (endianBytes big s (i % (2 ^ (8 * s) : Int)).toNat) = .vint i := by
  have hN : (256 : Nat) ^ s = 2 ^ (8 * s) := by
    rw [show (256 : Nat) = 2 ^ 8 by norm_num, ← pow_mul]
  have hmod : i % 2 ^ (8 * s) = i := Int.emod_eq_of_lt hlo hhi
  have hcastN : (((2 : Nat) ^ (8 * s) : Nat) : Int) = 2 ^ (8 * s) := by push_cast; rfl
  have hlt : i.toNat < 256 ^ s := by
    rw [hN]
    omega
  simp only [decodeField, hmod, bytesToNatLE_unendian, Nat.mod_eq_of_lt hlt,
    Value.vint.injEq]
  exact Int.toNat_of_nonneg hlo

theorem decodeField_packField (big : Bool) (ft : FieldType) (v : Value) (enc : List Byte)
    (hwf : ft.wf = true) (hsafe : valueSafe ft v = true)
    (h : packField big ft v = .ok enc) :
    decodeField big ft enc = v := by
  cases ft <;> cases v <;> simp only [packField] at h <;> try exact (Except.noConfusion h)
  case intf.vint s signed i =>
    have hs : 1 ≤ s := by
      simp only [FieldType.wf, Bool.or_eq_true, beq_iff_eq] at hwf
      omega
    cases signed <;> simp only [packField] at h <;> split at h <;>
      try exact (Except.noConfusion h)
    next hb =>
      injection h with h2
      subst h2
      exact decodeField_intf_unsigned big s i hb.1 hb.2
    next hb =>
      injection h with h2
      subst h2
      exact decodeField_intf_signed big s i hs hb.1 hb.2
  case float32.vfloat32 bits =>
    split at h
    next hb =>
      injection h with h2
      subst h2
      simp only [decodeField, bytesToNatLE_unendian]
      rw [Value.vfloat32.injEq]
      rw [Nat.mod_eq_of_lt (by norm_num at hb ⊢; omega)]
    next hb => exact (Except.noConfusion h)
  case float64.vfloat64 bits =>
    split at h
    next hb =>
      injection h with h2
      subst h2
      simp only [decodeField, bytesToNatLE_unendian]
      rw [Value.vfloat64.injEq]
      rw [Nat.mod_eq_of_lt (by norm_num at hb ⊢; omega)]
    next hb => exact (Except.noConfusion h)
  case char.vchar b =>
    injection h with h2
    subst h2
    rfl
  case boolf.vbool b =>
    injection h with h2
    subst h2
    cases b <;> rfl
  case str.vbytes n s =>
    have hlen : s.length = n := by
      simp only [valueSafe, beq_iff_eq] at hsafe
      exact hsafe
    split at h
    next hle =>
      injection h with h2
      subst h2
      simp only [decodeField, ← hlen, Nat.sub_self, List.replicate_zero, List.append_nil,
        List.take_length]
    next hle => exact (Except.noConfusion h)
  case pascal.vbytes n s =>
    have hlen : s.length ≤ min (n - 1) 255 := by
      simp only [valueSafe, decide_eq_true_eq] at hsafe
      exact hsafe
    split at h
    next hn =>
      injection h with h2
      subst h2
      subst hn
      have hs0 : s = [] := by
        rw [← List.length_eq_zero]
        omega
      subst hs0
      rfl
    next hn =>
      injection h with h2
      subst h2
      simp only [decodeField, if_neg hn, Value.vbytes.injEq]
      show (s.take (min s.length (min (n - 1) 255)) ++
          List.replicate (n - 1 - min s.length (min (n - 1) 255)) (0 : Byte)).take
            (min (min s.length (min (n - 1) 255)) (n - 1)) = s
      have hm : min s.length (min (n - 1) 255) = s.length := by omega
      have hmin : min s.length (n - 1) = s.length := by omega
      rw [hm, hmin, List.take_length]
      exact List.take_left s _

theorem packFieldsAux_length (m : Mode) :
    ∀ (fields : List FieldType) (vs : List Value) (off : Nat) (bs : List Byte),
      packFieldsAux m fields vs off = .ok bs →
      off + bs.length = calcsizeAux m fields off := by
  intro fields
  induction fields with
  | nil =>
    intro vs off bs h
    cases vs with
    | nil =>
      simp only [packFieldsAux] at h
      injection h with h2
      subst h2
      simp [calcsizeAux]
    | cons v vs => simp [packFieldsAux] at h
  | cons ft fs ih =>
    intro vs off bs h
    cases vs with
    | nil =>
      simp only [packFieldsAux] at h
      split at h
      next hp =>
        subst hp
        split at h
        next rest hrec =>
          injection h with h2
          subst h2
          have hlen := ih [] _ rest hrec
          simp only [calcsizeAux, List.length_append, List.length_replicate,
            List.length_cons, FieldType.byteSize] at *
          omega
        next e hrec => exact (Except.noConfusion h)
      next hnp => exact (Except.noConfusion h)
    | cons v vs =>
      simp only [packFieldsAux] at h
      split at h
      next hp =>
        subst hp
        split at h
        next rest hrec =>
          injection h with h2
          subst h2
          have hlen := ih (v :: vs) _ rest hrec
          simp only [calcsizeAux, List.length_append, List.length_replicate,
            List.length_cons, FieldType.byteSize] at *
          omega
        next e hrec => exact (Except.noConfusion h)
      next hnp =>
        split at h
        next enc rest henc hrec =>
          injection h with h2
          subst h2
          have hlen1 := packField_length _ _ _ _ henc
          have hlen2 := ih vs _ rest hrec
          simp only [calcsizeAux, List.length_append, List.length_replicate]
          omega
        next e henc => exact (Except.noConfusion h)
        next enc e henc hrec => exact (Except.noConfusion h)

theorem drop_replicate_append (p : Nat) (l : List Byte) :
    (List.replicate p (0 : Byte) ++ l).drop p = l := by
  have h := List.drop_left (List.replicate p (0 : Byte)) l
  rwa [List.length_replicate] at h

theorem unpackFieldsAux_packFieldsAux (m : Mode) :
    ∀ (fields : List FieldType) (vs : List Value) (off : Nat) (bs : List Byte),
      fields.all FieldType.wf = true →
      packFieldsAux m fields vs off = .ok bs →
      roundTripSafe fields vs = true →
      unpackFieldsAux m fields bs off = vs := by
  intro fields
  induction fields with
  | nil =>
    intro vs off bs hwf h hsafe
    cases vs with
    | nil => rfl
    | cons v vs => exact (Except.noConfusion h)
  | cons ft fs ih =>
    intro vs off bs hwf h hsafe
    have hwf1 : ft.wf = true := by
      simp only [List.all_cons, Bool.and_eq_true] at hwf
      exact hwf.1
    have hwf2 : fs.all FieldType.wf = true := by
      simp only [List.all_cons, Bool.and_eq_true] at hwf
      exact hwf.2
    cases vs with
    | nil =>
      simp only [packFieldsAux] at h
      split at h
      next hp =>
        split at h
        next rest hrec =>
          injection h with h2
          subst h2
          have hsafe2 : roundTripSafe fs [] = true := by
            simp only [roundTripSafe, if_pos hp] at hsafe
            exact hsafe
          rw [unpackFieldsAux, if_pos hp, drop_replicate_append]
          subst hp
          exact ih [] _ rest hwf2 hrec hsafe2
        next e hrec => exact (Except.noConfusion h)
      next hnp => exact (Except.noConfusion h)
    | cons v vs =>
      simp only [packFieldsAux] at h
      split at h
      next hp =>
        split at h
        next rest hrec =>
          injection h with h2
          subst h2
          have hsafe2 : roundTripSafe fs (v :: vs) = true := by
            simp only [roundTripSafe, if_pos hp] at hsafe
            exact hsafe
          rw [unpackFieldsAux, if_pos hp, drop_replicate_append]
          subst hp
          exact ih (v :: vs) _ rest hwf2 hrec hsafe2
        next e hrec => exact (Except.noConfusion h)
      next hnp =>
        split at h
        next enc rest henc hrec =>
          injection h with h2
          subst h2
          have hsafe1 : valueSafe ft v = true := by
            simp only [roundTripSafe, if_neg hnp, Bool.and_eq_true] at hsafe
            exact hsafe.1
          have hsafe2 : roundTripSafe fs vs = true := by
            simp only [roundTripSafe, if_neg hnp, Bool.and_eq_true] at hsafe
            exact hsafe.2
          have hlen : enc.length = ft.byteSize := packField_length _ _ _ _ henc
          rw [unpackFieldsAux, if_neg hnp, List.append_assoc, drop_replicate_append]
          have htake : (enc ++ rest).take ft.byteSize = enc := by
            rw [← hlen]
            exact List.take_left enc rest
          have hdrop : (enc ++ rest).drop ft.byteSize = rest := by
            rw [← hlen]
            exact List.drop_left enc rest
          rw [htake, hdrop, decodeField_packField _ _ _ _ hwf1 hsafe1 henc]
          rw [ih vs _ rest hwf2 hrec hsafe2]
        next e henc => exact (Except.noConfusion h)
        next enc e henc hrec => exact (Except.noConfusion h)

theorem codeFields_wf (m : Mode) (c : Char) (n : Nat) (fs : List FieldType)
    (h : codeFields m c n = .ok fs) : fs.all FieldType.wf = true := by
  simp only [codeFields] at h
  split at h <;> (try split at h) <;> try exact (Except.noConfusion h)
  all_goals
    injection h with h2
    subst h2
    simp only [List.all_eq_true]
    intro x hx
    first
      | (rcases List.eq_of_mem_replicate hx with rfl; rfl)
      | (rcases List.mem_singleton.mp hx with rfl; rfl)

theorem parseFieldsAux_wf (m : Mode) :
    ∀ (cs : List Char) (pending : Option Nat) (fs : List FieldType),
      parseFieldsAux m pending cs = .ok fs → fs.all FieldType.wf = true := by
  intro cs
  induction cs with
  | nil =>
    intro pending fs h
    cases pending with
    | none =>
      simp only [parseFieldsAux] at h
      injection h with h2
      subst h2
      rfl
    | some k => exact (Except.noConfusion h)
  | cons c cs ih =>
    intro pending fs h
    simp only [parseFieldsAux] at h
    split at h
    · -- whitespace
      cases pending with
      | none => exact ih none fs h
      | some k => exact (Except.noConfusion h)
    · split at h
      · -- digit
        exact ih _ fs h
      · -- type code
        split at h
        next fs1 hcode =>
          split at h
          next rest hrest =>
            injection h with h2
            subst h2
            rw [List.all_append, Bool.and_eq_true]
            exact ⟨codeFields_wf m c _ fs1 hcode, ih none rest hrest⟩
          next e hrest => exact (Except.noConfusion h)
        next e hcode => exact (Except.noConfusion h)

theorem parseFormat_wf (s : String) (f : FormatSpec)
    (h : parseFormat s = .ok f) : f.wf = true := by
  unfold parseFormat at h
  split at h
  next m cs hmode =>
    split at h
    next fields hfields =>
      injection h with h2
      subst h2
      exact parseFieldsAux_wf _ _ _ _ hfields
    next e hfields => exact (Except.noConfusion h)

end StructSpec

namespace StructShim

theorem delegate_state_some (p : String) (s : ShimState) (args : List PyVal) (e : PyVal)
    (h : s.cstruct = some e) :
    (delegate p s args).1 = s ∧ (delegate p s args).2.1 = false := by
  cases args with
  | nil => exact ⟨rfl, rfl⟩
  | cons self rest =>
    cases hg : getattr self cstructName <;>
      simp [delegate, ensureEngine, h, hg]

theorem delegate_state_none (p : String) (s : ShimState) (self : PyVal) (rest : List PyVal)
    (h : s.cstruct = none) :
    (delegate p s (self :: rest)).1 = ⟨some structModule⟩ ∧
      (delegate p s (self :: rest)).2.1 = true := by
  cases hg : getattr self cstructName <;>
    simp [delegate, ensureEngine, h, hg]

theorem runShim_some (calls : List (String × List PyVal)) (s : ShimState) (e : PyVal)
    (h : s.cstruct = some e) : runShim calls s = (s, 0) := by
  induction calls generalizing s e with
  | nil => rfl
  | cons c rest ih =>
    obtain ⟨p, args⟩ := c
    have hd := delegate_state_some p s args e h
    rcases hdel : delegate p s args with ⟨s1, imported, r⟩
    rw [hdel] at hd
    obtain ⟨hd1, hd2⟩ := hd
    simp only at hd1 hd2
    subst hd1
    subst hd2
    have hrun := ih _ e h
    simp [runShim, hdel, hrun]

theorem runShim_le_one (calls : List (String × List PyVal)) (s : ShimState) :
    (runShim calls s).2 ≤ 1 := by
  induction calls generalizing s with
  | nil => simp [runShim]
  | cons c rest ih =>
    obtain ⟨p, args⟩ := c
    rcases hdel : delegate p s args with ⟨s1, imported, r⟩
    simp only [runShim, hdel]
    cases himp : imported with
    | false =>
      have := ih s1
      rcases hrun : runShim rest s1 with ⟨s2, k⟩
      rw [hrun] at this
      simp at this
      simp [this]
    | true =>
      have hs1 : s1.cstruct = some structModule := by
        cases args with
        | nil =>
          simp only [delegate] at hdel
          injection hdel with hdel1 hdel2
          injection hdel2 with hdel2a hdel2b
          rw [himp] at hdel2a
          exact absurd hdel2a (by simp)
        | cons self rest2 =>
          cases hc : s.cstruct with
          | none =>
            have hd := delegate_state_none p s self rest2 hc
            rw [hdel] at hd
            have hd1 := hd.1
            simp only at hd1
            rw [hd1]
          | some e =>
            have hd := delegate_state_some p s (self :: rest2) e hc
            rw [hdel] at hd
            have hd2 := hd.2
            simp only at hd2
            rw [himp] at hd2
            exact absurd hd2 (by simp)
      rw [runShim_some rest s1 structModule hs1]
      simp

end StructShim

/-- C1: the claim says every exported function forwards its whole argument
list to the same-named operation of the native `_struct` engine, adding no
behaviour.  The code diverges: the delegate binds the first caller argument
to `self` and looks up `__cstruct` on it, so `pack("<I", 1)` raises
AttributeError while the engine's own `pack` returns `01 00 00 00`. -/
theorem shim_delegate_diverges_from_engine :
    (StructShim.delegate "pack" StructShim.initState
      [.pyStr "<I", .pyInt 1]).2.2 = StructShim.DelegateResult.attributeError ∧
    StructSpec.pack "<I" [.vint 1] = .ok [1, 0, 0, 0] :=
  ⟨rfl, rfl⟩

/-- C2: the shim's only state is the lazily initialized `__cstruct` handle:
it starts unset; a delegated call whose body runs with the handle unset
imports the engine and sets it; a call finding it set leaves it untouched;
and over any sequence of delegated calls the import runs at most once. -/
theorem shim_lazy_handle_once :
    StructShim.initState.cstruct = none ∧
    (∀ (p : String) (s : StructShim.ShimState) (self : StructShim.PyVal)
        (rest : List StructShim.PyVal), s.cstruct = none →
      (StructShim.delegate p s (self :: rest)).1.cstruct = some StructShim.structModule ∧
        (StructShim.delegate p s (self :: rest)).2.1 = true) ∧
    (∀ (p : String) (s : StructShim.ShimState) (args : List StructShim.PyVal)
        (e : StructShim.PyVal), s.cstruct = some e →
      (StructShim.delegate p s args).1 = s ∧ (StructShim.delegate p s args).2.1 = false) ∧
    (∀ calls : List (String × List StructShim.PyVal),
      (StructShim.runShim calls StructShim.initState).2 ≤ 1) := by
  refine ⟨rfl, ?_, ?_, ?_⟩
  · intro p s self rest h
    have hd := StructShim.delegate_state_none p s self rest h
    exact ⟨by rw [hd.1], hd.2⟩
  · intro p s args e h
    exact StructShim.delegate_state_some p s args e h
  · intro calls
    exact StructShim.runShim_le_one calls StructShim.initState

/-- C3 (amended): for a valid compiled format (admissible integer widths),
decoding inverts encoding — `unpack(f, pack(f, values)) = values` —
provided every fixed-length byte-string value has exactly the declared
field length and every Pascal-string value fits the declared capacity;
without that proviso the claim fails, see the counterexample. -/
theorem unpack_pack_roundTrip (f : StructSpec.FormatSpec) (vs : List StructSpec.Value)
    (bs : List StructSpec.Byte) (hwf : f.wf = true)
    (hp : StructSpec.packSpec f vs = .ok bs)
    (hsafe : StructSpec.roundTripSafe f.fields vs = true) :
    StructSpec.unpackSpec f bs = .ok vs := by
  have h0 := StructSpec.packFieldsAux_length f.mode f.fields vs 0 bs hp
  have hlen : bs.length = StructSpec.calcsizeSpec f := by
    unfold StructSpec.calcsizeSpec
    omega
  unfold StructSpec.unpackSpec
  rw [if_pos hlen,
    StructSpec.unpackFieldsAux_packFieldsAux f.mode f.fields vs 0 bs hwf hp hsafe]

/-- Witness for C3 at the big-endian signed 16-bit format and value -2. -/
theorem unpack_pack_roundTrip_witness :
    StructSpec.unpackSpec ⟨.bigPacked, [.intf 2 true]⟩ [255, 254] = .ok [.vint (-2)] :=
  unpack_pack_roundTrip ⟨.bigPacked, [.intf 2 true]⟩ [.vint (-2)] [255, 254]
    (by rfl) (by rfl) (by rfl)

/-- Counterexample to C3 as stated: for the valid format `<2s` and the
one-byte value `b"a"` — whose shape matches the single byte-string
descriptor, shorter values being zero-padded per the spec — packing yields
`61 00` but unpacking that yields the two-byte value, not the original. -/
theorem unpack_pack_roundTrip_cex :
    StructSpec.parseFormat "<2s" = .ok ⟨.littlePacked, [.str 2]⟩ ∧
    StructSpec.packSpec ⟨.littlePacked, [.str 2]⟩ [.vbytes [97]] = .ok [97, 0] ∧
    StructSpec.unpackSpec ⟨.littlePacked, [.str 2]⟩ [97, 0] = .ok [.vbytes [97, 0]] ∧
    StructSpec.Value.vbytes [97, 0] ≠ StructSpec.Value.vbytes [97] :=
  ⟨rfl, rfl, rfl, by decide⟩

/-- C4: whenever packing succeeds, the produced buffer has exactly
`calcsize` bytes — the size computed from the compiled format alone,
alignment padding included (a non-negative `Nat` by construction). -/
theorem pack_length_eq_calcsize (f : StructSpec.FormatSpec) (vs : List StructSpec.Value)
    (bs : List StructSpec.Byte) (hp : StructSpec.packSpec f vs = .ok bs) :
    bs.length = StructSpec.calcsizeSpec f := by
  have h0 := StructSpec.packFieldsAux_length f.mode f.fields vs 0 bs hp
  unfold StructSpec.calcsizeSpec
  omega

/-- Witness for C4 at the format `<I` with value 1. -/
theorem pack_length_eq_calcsize_witness :
    ([1, 0, 0, 0] : List StructSpec.Byte).length =
      StructSpec.calcsizeSpec ⟨.littlePacked, [.intf 4 false]⟩ :=
  pack_length_eq_calcsize ⟨.littlePacked, [.intf 4 false]⟩ [.vint 1] [1, 0, 0, 0] (by rfl)

/-- C5: multi-byte integers are written in the declared byte order:
`pack("<I", 1)` is `01 00 00 00` and `pack(">I", 1)` is `00 00 00 01`. -/
theorem pack_declared_byte_order :
    StructSpec.pack "<I" [.vint 1] = .ok [1, 0, 0, 0] ∧
    StructSpec.pack ">I" [.vint 1] = .ok [0, 0, 0, 1] :=
  ⟨rfl, rfl⟩

/-- C6: an integer that does not fit its declared field width fails with
RangeError, and the maximal representable value succeeds: `pack("<B", 256)`
is a RangeError while `pack("<B", 255)` is the single byte `ff`. -/
theorem pack_overflow_rangeError :
    StructSpec.pack "<B" [.vint 256] = .error .rangeError ∧
    StructSpec.pack "<B" [.vint 255] = .ok [255] :=
  ⟨rfl, rfl⟩

/-- C7: `iter_unpack` requires the buffer length to be an exact multiple of
`calcsize` and otherwise fails with BufferError producing nothing; on
success it has one element per chunk, and its i-th element is `unpack` of
the i-th non-overlapping `calcsize`-byte chunk; concretely
`iter_unpack("<H", 01 00 02 00)` is `[(1,), (2,)]` and
`iter_unpack("<H", 01 00 02)` is a BufferError. -/
theorem iter_unpack_chunks :
    (∀ (f : StructSpec.FormatSpec) (buf : List StructSpec.Byte),
      buf.length % StructSpec.calcsizeSpec f = 0 →
      ∃ res, StructSpec.iterUnpackSpec f buf = .ok res ∧
        res.length = buf.length / StructSpec.calcsizeSpec f) ∧
    (∀ (f : StructSpec.FormatSpec) (buf : List StructSpec.Byte),
      buf.length % StructSpec.calcsizeSpec f ≠ 0 →
      StructSpec.iterUnpackSpec f buf = .error .bufferError) ∧
    (∀ (f : StructSpec.FormatSpec) (buf : List StructSpec.Byte)
        (res : List (List StructSpec.Value)),
      StructSpec.iterUnpackSpec f buf = .ok res →
      ∀ (i : Nat) (hi : i < res.length),
        StructSpec.unpackSpec f
          ((buf.drop (i * StructSpec.calcsizeSpec f)).take (StructSpec.calcsizeSpec f)) =
          .ok res[i]) ∧
    StructSpec.iter_unpack "<H" [1, 0, 2, 0] = .ok [[.vint 1], [.vint 2]] ∧
    StructSpec.iter_unpack "<H" [1, 0, 2] = .error .bufferError := by
  refine ⟨?_, ?_, ?_, rfl, rfl⟩
  · intro f buf h
    unfold StructSpec.iterUnpackSpec
    rw [if_pos h]
    exact ⟨_, rfl, by simp⟩
  · intro f buf h
    unfold StructSpec.iterUnpackSpec
    rw [if_neg h]
  · intro f buf res hres i hi
    unfold StructSpec.iterUnpackSpec at hres
    split at hres
    next hmod =>
      injection hres with h2
      subst h2
      have hilt : i < buf.length / StructSpec.calcsizeSpec f := by
        simpa using hi
      have hb : i * StructSpec.calcsizeSpec f + StructSpec.calcsizeSpec f ≤
          buf.length := by
        have h1 : (i + 1) * StructSpec.calcsizeSpec f ≤
            (buf.length / StructSpec.calcsizeSpec f) * StructSpec.calcsizeSpec f :=
          Nat.mul_le_mul_right _ hilt
        have h2 := Nat.div_mul_le_self buf.length (StructSpec.calcsizeSpec f)
        rw [Nat.succ_mul] at h1
        omega
      have hchunk : ((buf.drop (i * StructSpec.calcsizeSpec f)).take
          (StructSpec.calcsizeSpec f)).length = StructSpec.calcsizeSpec f := by
        simp only [List.length_take, List.length_drop]
        omega
      unfold StructSpec.unpackSpec
      rw [if_pos hchunk, List.getElem_map, List.getElem_range]
    next hmod => exact (Except.noConfusion hres)

/-- C8: on a compiled format, `unpack` fails with BufferError exactly when
the buffer length differs from `calcsize` and succeeds otherwise;
`unpack_from` fails with BufferError exactly when fewer than `calcsize`
bytes remain past the offset, and on success consumes exactly the
`calcsize`-byte slice at the offset (it equals `unpack` of that slice);
concretely `unpack_from("<I", 00 00, 0)` is a BufferError. -/
theorem unpack_bufferError_iff :
    (∀ (f : StructSpec.FormatSpec) (buf : List StructSpec.Byte),
      buf.length = StructSpec.calcsizeSpec f →
      ∃ vs, StructSpec.unpackSpec f buf = .ok vs) ∧
    (∀ (f : StructSpec.FormatSpec) (buf : List StructSpec.Byte),
      buf.length ≠ StructSpec.calcsizeSpec f →
      StructSpec.unpackSpec f buf = .error .bufferError) ∧
    (∀ (f : StructSpec.FormatSpec) (buf : List StructSpec.Byte) (off : Nat),
      ((buf.length : Int) - off < StructSpec.calcsizeSpec f →
        StructSpec.unpackFromSpec f buf off = .error .bufferError) ∧
      (¬ ((buf.length : Int) - off < StructSpec.calcsizeSpec f) →
        StructSpec.unpackFromSpec f buf off =
          StructSpec.unpackSpec f ((buf.drop off).take (StructSpec.calcsizeSpec f)))) ∧
    StructSpec.unpack_from "<I" [0, 0] 0 = .error .bufferError := by
  refine ⟨?_, ?_, ?_, rfl⟩
  · intro f buf h
    unfold StructSpec.unpackSpec
    rw [if_pos h]
    exact ⟨_, rfl⟩
  · intro f buf h
    unfold StructSpec.unpackSpec
    rw [if_neg h]
  · intro f buf off
    constructor
    · intro h
      unfold StructSpec.unpackFromSpec
      rw [if_pos (by omega)]
    · intro h
      unfold StructSpec.unpackFromSpec StructSpec.unpackSpec
      rw [if_neg (by omega : ¬ buf.length < off + StructSpec.calcsizeSpec f),
        if_pos (by simp only [List.length_take, List.length_drop]; omega)]

/-- C9: each exported delegate binds its first positional argument as
`self` and evaluates `getattr(self.__cstruct, p)`: when the first argument
has no attribute named `__cstruct` — as for format strings — the call
raises AttributeError instead of reaching the engine, and otherwise only
the arguments after the first are forwarded to the operation `p`. -/
theorem delegate_attribute_lookup :
    (∀ (p : String) (s : StructShim.ShimState) (self : StructShim.PyVal)
        (rest : List StructShim.PyVal),
      StructShim.getattr self StructShim.cstructName = none →
      (StructShim.delegate p s (self :: rest)).2.2 =
        StructShim.DelegateResult.attributeError) ∧
    (∀ (p : String) (s : StructShim.ShimState) (self : StructShim.PyVal)
        (rest : List StructShim.PyVal) (t : StructShim.PyVal),
      StructShim.getattr self StructShim.cstructName = some t →
      (StructShim.delegate p s (self :: rest)).2.2 =
        StructShim.DelegateResult.engineCall t p rest) ∧
    (∀ q : String, StructShim.getattr (.pyStr q) StructShim.cstructName = none) ∧
    (StructShim.delegate "unpack" StructShim.initState
      [.pyBytes [0, 1], .pyInt 0]).2.2 = StructShim.DelegateResult.attributeError := by
  refine ⟨?_, ?_, ?_, rfl⟩
  · intro p s self rest h
    rcases he : StructShim.ensureEngine s with ⟨s1, b⟩
    simp [StructShim.delegate, he, h]
  · intro p s self rest t h
    rcases he : StructShim.ensureEngine s with ⟨s1, b⟩
    simp [StructShim.delegate, he, h]
  · intro q
    rfl

/-- C10: after module initialization every name in `__all__` — `Struct`
and `error` included — is bound in the module globals to a plain delegate
function whose `__name__` equals that name; in particular `error` is a
function, not an exception class, and `Struct` is a function, not a type. -/
theorem all_exports_are_delegates :
    (StructShim.allNames.all fun p =>
      decide (StructShim.lookupGlobal StructShim.moduleInit p =
        some (StructShim.make_delegate p))) = true ∧
    StructShim.lookupGlobal StructShim.moduleInit "Struct" =
      some (StructShim.GlobalBinding.delegateFunc "Struct") ∧
    StructShim.lookupGlobal StructShim.moduleInit "error" =
      some (StructShim.GlobalBinding.delegateFunc "error") :=
  ⟨rfl, rfl, rfl⟩
